import Mathlib

/-!
# Verification of the database-sync-service replication engine

A shallow embedding of the core of the `database-sync-service` repository:
the per-table data differ (`DataSync` in `src/modules/data`), the schema
differ (`SchemaSync` in `src/modules/schema`), the routine syncer
(`ProceduresSync` in `src/modules/procedures`) and the MySQL dialect
adapter (`MySQLAdapter`).

Databases are modelled as lists of rows in server order; every SQL
statement the engine issues is recorded in an operation trace, and the
target database evolves by applying the trace.  The definitions are
direct translations of the TypeScript source; the theorems at the end of
the file settle the specification claims against them.
-/

set_option linter.unusedSectionVars false

namespace DbSync

/-- First-occurrence deduplication: the iteration order of a JavaScript
`Set` built by inserting the elements of a list in order (`new Set(l)`,
then `Array.from`). -/
def firstDedup [DecidableEq α] : List α → List α
  | [] => []
  | x :: xs => x :: (firstDedup xs).filter (fun y => y ≠ x)

theorem mem_firstDedup [DecidableEq α] (l : List α) (a : α) :
    a ∈ firstDedup l ↔ a ∈ l := by
  induction l with
  | nil => simp [firstDedup]
  | cons x xs ih =>
    by_cases hax : a = x
    · subst hax; simp [firstDedup]
    · simp [firstDedup, List.mem_filter, hax, ih]

theorem nodup_firstDedup [DecidableEq α] (l : List α) :
    (firstDedup l).Nodup := by
  induction l with
  | nil => simp [firstDedup]
  | cons x xs ih =>
    refine List.Nodup.cons ?_ (ih.filter _)
    intro hx
    have := (List.mem_filter.mp hx).2
    simp at this

/-- Structural worker for `chunksOf100` (the fuel is an upper bound on
the list length, so the unreachable `0, _ :: _` case never fires). -/
def chunkGo : Nat → List α → List (List α)
  | _, [] => []
  | 0, _ :: _ => []
  | fuel + 1, x :: xs => ((x :: xs).take 100) :: chunkGo fuel ((x :: xs).drop 100)

/-- `l` cut into consecutive batches of (at most) 100 elements, matching
the `for (let i = 0; i < l.length; i += 100) l.slice(i, i + 100)` loop of
`executeBatchDeletes`. -/
def chunksOf100 (l : List α) : List (List α) :=
  chunkGo l.length l

theorem chunkGo_nil (fuel : Nat) : chunkGo fuel ([] : List α) = [] := by
  cases fuel <;> rfl

theorem join_chunkGo (fuel : Nat) (l : List α) (h : l.length ≤ fuel) :
    (chunkGo fuel l).flatten = l := by
  induction fuel generalizing l with
  | zero =>
    cases l with
    | nil => rfl
    | cons x xs => simp at h
  | succ fuel ih =>
    cases l with
    | nil => rfl
    | cons x xs =>
      rw [chunkGo, List.flatten_cons, ih, List.take_append_drop]
      simp at h ⊢
      omega

theorem join_chunksOf100 (l : List α) : (chunksOf100 l).flatten = l :=
  join_chunkGo l.length l le_rfl

theorem length_chunkGo (fuel : Nat) (l : List α) (h : l.length ≤ fuel) :
    (chunkGo fuel l).length = (l.length + 99) / 100 := by
  induction fuel generalizing l with
  | zero =>
    cases l with
    | nil => simp [chunkGo]
    | cons x xs => simp at h
  | succ fuel ih =>
    cases l with
    | nil => simp [chunkGo]
    | cons x xs =>
      rw [chunkGo]
      have hrec := ih ((x :: xs).drop 100) (by simp at h ⊢; omega)
      simp only [List.length_cons, List.length_drop] at hrec ⊢
      omega

theorem length_chunksOf100 (l : List α) :
    (chunksOf100 l).length = (l.length + 99) / 100 :=
  length_chunkGo l.length l le_rfl

theorem length_le_of_mem_chunkGo (fuel : Nat) (l : List α) (b : List α)
    (hb : b ∈ chunkGo fuel l) : b.length ≤ 100 := by
  induction fuel generalizing l with
  | zero =>
    cases l with
    | nil => simp [chunkGo] at hb
    | cons x xs => simp [chunkGo] at hb
  | succ fuel ih =>
    cases l with
    | nil => simp [chunkGo] at hb
    | cons x xs =>
      rw [chunkGo] at hb
      rcases List.mem_cons.mp hb with h | h
      · subst h
        simp
      · exact ih _ h

theorem length_le_of_mem_chunksOf100 (l : List α) (b : List α)
    (hb : b ∈ chunksOf100 l) : b.length ≤ 100 :=
  length_le_of_mem_chunkGo l.length l b hb

/-! ## Data model

Rows are abstract (`Row`); the primary-key projection `pkOf` models
`row[primaryKey]` and the witness projection `wOf` models
`row[timestampColumn]` (timestamps as naturals).  A database table is a
`List Row` in server order. -/

/-- One SQL statement (or log line) issued by the data differ. -/
inductive DbOp (Row Key : Type) where
  /-- `insertRows(target, rows)` — MySQL `REPLACE INTO`, one statement per row. -/
  | insertRows (rows : List Row)
  /-- `upsertRows(target, rows, pk)` — `INSERT … ON DUPLICATE KEY UPDATE`. -/
  | upsertRows (rows : List Row)
  /-- One `DELETE FROM t WHERE pk IN (…)` statement over one batch of keys. -/
  | deleteWhereIn (keys : List Key)
  /-- `TRUNCATE TABLE` on the target. -/
  | truncate
  /-- The `selectWhere(source, t, witness, since)` read of the update phase. -/
  | selectWhereQ (since : Nat)
  /-- `logger.warn` that the table has no primary key. -/
  | warnNoPk
  deriving DecidableEq

/-- Whether an operation mutates the target database. -/
def DbOp.isMutation {Row Key : Type} : DbOp Row Key → Bool
  | .insertRows _ => true
  | .upsertRows _ => true
  | .deleteWhereIn _ => true
  | .truncate => true
  | .selectWhereQ _ => false
  | .warnNoPk => false

variable {Row Key : Type} [DecidableEq Key]

/-- Effect of one statement on the target table.  `REPLACE INTO` deletes any
row with the same primary key, then inserts; `ON DUPLICATE KEY UPDATE`
overwrites in place when the key exists, else appends; `DELETE … IN` filters. -/
def applyOp (pkOf : Row → Key) (tgt : List Row) : DbOp Row Key → List Row
  | .insertRows rows =>
      rows.foldl (fun t r => t.filter (fun x => pkOf x ≠ pkOf r) ++ [r]) tgt
  | .upsertRows rows =>
      rows.foldl (fun t r =>
        if pkOf r ∈ t.map pkOf then
          t.map (fun x => if pkOf x = pkOf r then r else x)
        else t ++ [r]) tgt
  | .deleteWhereIn ks => tgt.filter (fun x => pkOf x ∉ ks)
  | .truncate => []
  | .selectWhereQ _ => tgt
  | .warnNoPk => tgt

def applyOps (pkOf : Row → Key) (tgt : List Row) (ops : List (DbOp Row Key)) : List Row :=
  ops.foldl (applyOp pkOf) tgt

/-- `newPKs`: primary keys present in the source key set but not the target
key set, in JavaScript `Set` iteration order
(`Array.from(sourcePKs).filter(pk => !targetPKs.has(pk))`). -/
def newKeys (pkOf : Row → Key) (src tgt : List Row) : List Key :=
  (firstDedup (src.map pkOf)).filter (fun k => k ∉ tgt.map pkOf)

/-- `commonPKs`: keys present on both sides. -/
def commonKeys (pkOf : Row → Key) (src tgt : List Row) : List Key :=
  (firstDedup (src.map pkOf)).filter (fun k => k ∈ tgt.map pkOf)

/-- `deletedPKs`: keys present in the target key set but not the source
key set. -/
def deletedKeys (pkOf : Row → Key) (src tgt : List Row) : List Key :=
  (firstDedup (tgt.map pkOf)).filter (fun k => k ∉ src.map pkOf)

/-- Result of one per-table sync call: the statements issued, the target
table afterwards, the updated `TableSyncState.lastSyncTime`, and the
returned `totalRowsAffected`. -/
structure SyncOut (Row Key : Type) where
  ops : List (DbOp Row Key)
  target : List Row
  state : Option Nat
  total : Nat
  deriving DecidableEq

/-- The `newRows` fetched by the insert phase: `SELECT * FROM source WHERE
pk IN (newPKs)` (nothing is fetched when `newPKs` is empty). -/
def newRowsOf (pkOf : Row → Key) (src tgt : List Row) : List Row :=
  if (newKeys pkOf src tgt).isEmpty then []
  else src.filter (fun r => pkOf r ∈ newKeys pkOf src tgt)

/-- The insert-phase statements: one `insertRows` when any new row exists. -/
def insOpsOf (pkOf : Row → Key) (src tgt : List Row) : List (DbOp Row Key) :=
  if (newRowsOf pkOf src tgt).isEmpty then []
  else [.insertRows (newRowsOf pkOf src tgt)]

/-- The update phase: statements issued and the `updatedRows` that were
upserted.  Runs only when at least one key is common, the table has a
change-witness column and a prior sync state exists. -/
def updPairOf (pkOf : Row → Key) (wOf : Row → Nat) (hasW : Bool)
    (src tgt : List Row) (st : Option Nat) : List (DbOp Row Key) × List Row :=
  if !(commonKeys pkOf src tgt).isEmpty && hasW then
    match st with
    | some t =>
        let u := src.filter (fun r => t < wOf r)
        (.selectWhereQ t :: (if u.isEmpty then [] else [.upsertRows u]), u)
    | none => ([], [])
  else ([], [])

/-- The delete-phase statements: `executeBatchDeletes` over `deletedPKs`,
100 keys per `DELETE … WHERE pk IN (…)` statement. -/
def delOpsOf (pkOf : Row → Key) (src tgt : List Row) : List (DbOp Row Key) :=
  if (deletedKeys pkOf src tgt).isEmpty then []
  else (chunksOf100 (deletedKeys pkOf src tgt)).map .deleteWhereIn

/-- All statements of one `primaryKeyBasedSync` call, in issue order:
inserts, then updates, then deletes. -/
def pkSyncOps (pkOf : Row → Key) (wOf : Row → Nat) (hasW : Bool)
    (src tgt : List Row) (st : Option Nat) : List (DbOp Row Key) :=
  insOpsOf pkOf src tgt ++ (updPairOf pkOf wOf hasW src tgt st).1
    ++ delOpsOf pkOf src tgt

/-- `DataSync.primaryKeyBasedSync` (adapter-based `DataSync`, steady-state
path): set difference of primary keys for inserts and deletes, a
timestamp-window `selectWhere` feeding `upsertRows` for updates, deletes
batched 100 keys per statement, and the sync state advanced to `now` iff
any rows were affected.  `hasW` is `hasTimestampColumn(table)` and `wOf`
projects the witness column found by `getTimestampColumn`. -/
def primaryKeyBasedSync (pkOf : Row → Key) (wOf : Row → Nat) (hasW : Bool)
    (src tgt : List Row) (st : Option Nat) (now : Nat) : SyncOut Row Key :=
  let ops := pkSyncOps pkOf wOf hasW src tgt st
  let total := (newRowsOf pkOf src tgt).length
    + (updPairOf pkOf wOf hasW src tgt st).2.length
    + (deletedKeys pkOf src tgt).length
  { ops := ops
    target := applyOps pkOf tgt ops
    state := if 0 < total then some now else st
    total := total }

/-! ## Concrete tables

`DESCRIBE` output rows (`ColumnInfo`), concrete data rows as column-keyed
tuples (`RowV`), and the per-table dispatch `DataSync.syncTable`. -/

/-- One row of `DESCRIBE table` (the `ColumnInfo` interface); `Typ` is the
source's `Type` field. -/
structure ColumnInfo where
  Field : String
  Typ : String
  Null : String
  Key : String
  Default : Option String
  Extra : String
  deriving DecidableEq

/-- JavaScript `s.toLowerCase()` (character-wise lowering, the same map
`String.toLower` performs). -/
def jsToLower (s : String) : String :=
  ⟨s.data.map Char.toLower⟩

/-- JavaScript `s.includes(sub)`: `sub` occurs as a contiguous substring
of `s`. -/
def containsSub (sub s : String) : Bool :=
  decide (sub.toList <:+: s.toList)

/-- The change-witness predicate of `hasTimestampColumn` /
`getTimestampColumn`: lowercased name in the fixed list, or type-string
containing `timestamp` case-insensitively. -/
def isTimestampCol (c : ColumnInfo) : Bool :=
  ["updated_at", "modified_at", "timestamp", "last_modified"].contains (jsToLower c.Field)
    || containsSub "timestamp" (jsToLower c.Typ)

/-- `DataSync.getTimestampColumn`: `Field` of the first matching column. -/
def getTimestampColumn (cols : List ColumnInfo) : Option String :=
  (cols.find? isTimestampCol).map (·.Field)

/-- `DataSync.hasTimestampColumn`. -/
def hasTimestampColumn (cols : List ColumnInfo) : Bool :=
  cols.any isTimestampCol

/-- `MySQLAdapter.getPrimaryKey`: `Field` of the first column whose `Key`
is `'PRI'`, else `null`. -/
def getPrimaryKey (cols : List ColumnInfo) : Option String :=
  (cols.find? (fun c => c.Key == "PRI")).map (·.Field)

/-- A concrete data row: a column-keyed tuple with numeric cell values
(primary keys and timestamps both live in `Nat`). -/
abbrev RowV := List (String × Nat)

/-- `row[column]` — JavaScript property access, `0` for a missing column. -/
def lookupCol (r : RowV) (c : String) : Nat :=
  ((r.find? (fun p => p.1 == c)).map (·.2)).getD 0

/-- `DataSync.fullTableSync` on a keyless table: truncate the target, then
`insertRows` every source row (no statement when the source is empty).
`REPLACE INTO` on a table with no unique key inserts plainly, so the
reloaded target equals the source list.  The per-table sync state is not
touched. -/
def fullTableSync (src _tgt : List RowV) (st : Option Nat) : SyncOut RowV Nat :=
  let ops : List (DbOp RowV Nat) :=
    .truncate :: (if src.isEmpty then [] else [.insertRows src])
  { ops := ops
    target := src
    state := st
    total := src.length }

/-- `DataSync.syncTable` (adapter-based `DataSync`, the steady-state data
tick for one table): primary-key-based reconciliation when
`getPrimaryKey` finds a key, otherwise a warning followed by a full table
sync. -/
def syncTable (cols : List ColumnInfo) (src tgt : List RowV) (st : Option Nat)
    (now : Nat) : SyncOut RowV Nat :=
  match getPrimaryKey cols with
  | some pk =>
      primaryKeyBasedSync (fun r => lookupCol r pk)
        (fun r => lookupCol r ((getTimestampColumn cols).getD ""))
        (hasTimestampColumn cols) src tgt st now
  | none =>
      let o := fullTableSync src tgt st
      { o with ops := .warnNoPk :: o.ops }

/-! ## Tick-level error handling (`DataSync.syncData`)

Adapter calls can throw (`QueryFailed`).  `primaryKeyBasedSync` wraps its
whole body in `try … catch` and returns `0` on any error, so exceptions
raised by its insert / upsert / delete statements never escape;
`executeBatchDeletes` likewise catches internally and returns `0`.
`fullTableSync` has no handler, so its exceptions propagate to
`syncData`'s per-table `catch`.  Failure injection flags say which
adapter mutation throws. -/

/-- The body of `primaryKeyBasedSync` with fallible adapter calls: the
computation before the `catch`.  Returns the `totalRowsAffected` the
function would report. -/
def pkSyncAttempt (failIns failUps failDel : Bool) (pkOf : Row → Key)
    (wOf : Row → Nat) (hasW : Bool) (src tgt : List Row) (st : Option Nat) :
    Except String Nat :=
  let nk := newKeys pkOf src tgt
  let newRows := if nk.isEmpty then [] else src.filter (fun r => pkOf r ∈ nk)
  if !newRows.isEmpty && failIns then .error "Query failed" else
  let updRes : Except String Nat :=
    if !(commonKeys pkOf src tgt).isEmpty && hasW then
      match st with
      | some t =>
          let u := src.filter (fun r => t < wOf r)
          if !u.isEmpty && failUps then .error "Query failed" else .ok u.length
      | none => .ok 0
    else .ok 0
  match updRes with
  | .error e => .error e
  | .ok ul =>
      let dk := deletedKeys pkOf src tgt
      -- `executeBatchDeletes` catches its own errors and reports 0 deleted
      let delCount := if !dk.isEmpty && failDel then 0 else dk.length
      .ok (newRows.length + ul + delCount)

/-- `primaryKeyBasedSync` as observed by its caller: the `catch` turns any
thrown error into a returned `0`. -/
def pkSyncRun (failIns failUps failDel : Bool) (pkOf : Row → Key)
    (wOf : Row → Nat) (hasW : Bool) (src tgt : List Row) (st : Option Nat) : Nat :=
  match pkSyncAttempt failIns failUps failDel pkOf wOf hasW src tgt st with
  | .ok n => n
  | .error _ => 0

/-- One table of a data tick, with failure-injection flags for the
adapter statements issued while syncing it.  `failFull` makes the
keyless-table full sync throw (it has no internal handler). -/
structure TableJob where
  name : String
  cols : List ColumnInfo
  src : List RowV
  tgt : List RowV
  st : Option Nat
  failIns : Bool
  failUps : Bool
  failDel : Bool
  failFull : Bool
  deriving DecidableEq

/-- `DataSync.syncTable` as a fallible computation: the rows-synced count,
or the exception it lets escape to `syncData`. -/
def syncTableE (j : TableJob) : Except String Nat :=
  match getPrimaryKey j.cols with
  | some pk =>
      .ok (pkSyncRun j.failIns j.failUps j.failDel (fun r => lookupCol r pk)
        (fun r => lookupCol r ((getTimestampColumn j.cols).getD ""))
        (hasTimestampColumn j.cols) j.src j.tgt j.st)
  | none => if j.failFull then .error "Query failed" else .ok j.src.length

/-- The `SyncResult` of a data tick. -/
structure TickResult where
  success : Bool
  totalRowsSynced : Nat
  errors : List String
  deriving DecidableEq

/-- The per-table error string `syncData` appends. -/
def tableErrorMsg (j : TableJob) (m : String) : String :=
  "Error syncing table " ++ j.name ++ ": " ++ m

/-- `DataSync.syncData`: loop over the tables, accumulate rows synced,
catch per-table exceptions into the error list and continue;
`success := errors.length === 0`. -/
def syncData (jobs : List TableJob) : TickResult :=
  let acc := jobs.foldl
    (fun (a : Nat × List String) j =>
      match syncTableE j with
      | .ok n => (a.1 + n, a.2)
      | .error m => (a.1, a.2 ++ [tableErrorMsg j m]))
    (0, [])
  { success := acc.2.isEmpty
    totalRowsSynced := acc.1
    errors := acc.2 }

/-! ## Routine syncer (`ProceduresSync.syncRoutines`) -/

/-- A `RoutineDescriptor`: name and canonical CREATE text (empty when the
adapter could not fetch it). -/
structure RoutineInfo where
  name : String
  createStatement : String
  deriving DecidableEq

/-- A statement issued against the target by the routine syncer. -/
inductive RoutineOp where
  | createStmt (sql : String)
  | dropRoutine (kind name : String)
  deriving DecidableEq

/-- The statements `syncRoutines` issues for one source routine: create
when absent (guarded by JavaScript truthiness of the CREATE text), drop
then conditionally recreate when the CREATE texts differ byte-for-byte,
nothing when byte-equal. -/
def routineAction (kind : String) (tgtR : List RoutineInfo) (s : RoutineInfo) :
    List RoutineOp :=
  match tgtR.find? (fun t => t.name == s.name) with
  | none =>
      if s.createStatement ≠ "" then [.createStmt s.createStatement] else []
  | some t =>
      if s.createStatement ≠ t.createStatement then
        .dropRoutine kind s.name ::
          (if s.createStatement ≠ "" then [.createStmt s.createStatement] else [])
      else []

/-- `ProceduresSync.syncRoutines` for one kind: iterate the source
routines in order; target-only routines are never visited. -/
def syncRoutines (kind : String) (srcR tgtR : List RoutineInfo) : List RoutineOp :=
  srcR.flatMap (routineAction kind tgtR)

/-- The routine pass as claim C8 words it (one CREATE for every absent
source routine, unconditional recreate after a drop): the spec-side
function compared against `syncRoutines`. -/
def routineActionClaimed (kind : String) (tgtR : List RoutineInfo)
    (s : RoutineInfo) : List RoutineOp :=
  match tgtR.find? (fun t => t.name == s.name) with
  | none => [.createStmt s.createStatement]
  | some t =>
      if s.createStatement ≠ t.createStatement then
        [.dropRoutine kind s.name, .createStmt s.createStatement]
      else []

def syncRoutinesClaimed (kind : String) (srcR tgtR : List RoutineInfo) :
    List RoutineOp :=
  srcR.flatMap (routineActionClaimed kind tgtR)

/-! ## Schema differ (`SchemaSync`)

The repository ships two `SchemaSync` revisions in
`src/modules/schema/schema-sync.ts`: the raw-SQL v1 whose
`updateTableStructure` ends with `syncIndexes`, and the adapter-based v2
(the one `SyncService` imports) whose `updateTableStructure` reconciles
columns only.  Only the `SHOW INDEX` fields the differ reads are
modelled. -/

/-- One row of `SHOW INDEX FROM t` (the fields the differ reads). -/
structure IndexInfo where
  Key_name : String
  Non_unique : Nat
  Seq_in_index : Nat
  Column_name : String
  deriving DecidableEq

/-- A DDL statement issued against the target by the schema differ. -/
inductive SchemaOp where
  | addColumn (c : ColumnInfo)
  | modifyColumn (c : ColumnInfo)
  | dropColumn (name : String)
  | dropIndex (name : String)
  | createIndex (name : String) (unique : Bool) (cols : List String)
  deriving DecidableEq

def SchemaOp.isIndexOp : SchemaOp → Bool
  | .dropIndex _ => true
  | .createIndex _ _ _ => true
  | _ => false

/-- `SchemaSync.columnsMatch`. -/
def columnsMatch (c1 c2 : ColumnInfo) : Bool :=
  c1.Typ == c2.Typ && c1.Null == c2.Null && c1.Key == c2.Key
    && c1.Default == c2.Default && c1.Extra == c2.Extra

/-- The column walk shared by both `updateTableStructure` revisions:
source-only columns are added, both-sides columns with a changed
definition are modified, target-only columns are dropped. -/
def columnOps (srcCols tgtCols : List ColumnInfo) : List SchemaOp :=
  (srcCols.flatMap fun sc =>
    match tgtCols.find? (fun t => t.Field == sc.Field) with
    | none => [.addColumn sc]
    | some tc => if !columnsMatch sc tc then [.modifyColumn sc] else [])
  ++ (tgtCols.flatMap fun tc =>
    if srcCols.any (fun s => s.Field == tc.Field) then [] else [.dropColumn tc.Field])

/-- The key names of `groupIndexesByName` in object-key insertion order. -/
def indexNames (idxs : List IndexInfo) : List String :=
  firstDedup (idxs.map (·.Key_name))

/-- The group a name maps to in `groupIndexesByName`. -/
def indexParts (idxs : List IndexInfo) (n : String) : List IndexInfo :=
  idxs.filter (fun i => i.Key_name == n)

/-- `indexParts.sort((a, b) => a.Seq_in_index - b.Seq_in_index)`: a stable
sort by `Seq_in_index`. -/
def sortBySeq (parts : List IndexInfo) : List IndexInfo :=
  parts.insertionSort (fun a b => a.Seq_in_index ≤ b.Seq_in_index)

/-- `SchemaSync.createIndex` (v1): composite index, unique iff the first
part's `Non_unique` is `0`, columns ordered by `Seq_in_index`. -/
def createIndexOp (n : String) (parts : List IndexInfo) : SchemaOp :=
  .createIndex n ((parts.headD ⟨"", 1, 0, ""⟩).Non_unique == 0)
    ((sortBySeq parts).map (·.Column_name))

/-- `SchemaSync.syncIndexes` (v1 only): drop non-PRIMARY target index
names missing from the source, then create non-PRIMARY source index
names missing from the target. -/
def syncIndexes (srcIdx tgtIdx : List IndexInfo) : List SchemaOp :=
  ((indexNames tgtIdx).filter
      (fun n => n ≠ "PRIMARY" && !(indexNames srcIdx).contains n)).map .dropIndex
  ++ ((indexNames srcIdx).filter
      (fun n => n ≠ "PRIMARY" && !(indexNames tgtIdx).contains n)).map
        (fun n => createIndexOp n (indexParts srcIdx n))

/-- `SchemaSync.updateTableStructure`, v1 (raw SQL): columns then indexes. -/
def updateTableStructureV1 (srcCols tgtCols : List ColumnInfo)
    (srcIdx tgtIdx : List IndexInfo) : List SchemaOp :=
  columnOps srcCols tgtCols ++ syncIndexes srcIdx tgtIdx

/-- `SchemaSync.updateTableStructure`, v2 (adapter-based, used by
`SyncService`): columns only. -/
def updateTableStructure (srcCols tgtCols : List ColumnInfo) : List SchemaOp :=
  columnOps srcCols tgtCols

/-- `SchemaSync.compareTableStructure`: `JSON.stringify` inequality of the
column lists or of the index lists. -/
def compareTableStructure (srcCols tgtCols : List ColumnInfo)
    (srcIdx tgtIdx : List IndexInfo) : Bool :=
  !(srcCols == tgtCols) || !(srcIdx == tgtIdx)

/-- The v2 schema tick for one table present on both sides: run
`updateTableStructure` iff `compareTableStructure` reports a difference. -/
def syncTableStructure (srcCols tgtCols : List ColumnInfo)
    (srcIdx tgtIdx : List IndexInfo) : List SchemaOp :=
  if compareTableStructure srcCols tgtCols srcIdx tgtIdx then
    updateTableStructure srcCols tgtCols
  else []

/-! ## MySQL adapter connection state (`MySQLAdapter.connect`) -/

/-- The adapter's only connection state: the pool reference (`null` until
`connect` creates it). -/
structure AdapterState where
  pool : Option Unit
  deriving DecidableEq

/-- `MySQLAdapter.connect`: `this.pool = mysql.createPool(config)` happens
before the validating `getConnection`; when that acquire throws, the
error is wrapped and re-thrown but the pool field keeps the new pool. -/
def mysqlConnect (acquireFails : Bool) (_s : AdapterState) :
    AdapterState × Except String Bool :=
  let s1 : AdapterState := { pool := some () }
  if acquireFails then (s1, .error "Failed to connect to MySQL database")
  else (s1, .ok true)

/-- `MySQLAdapter.isConnected`: `this.pool !== null`. -/
def isConnected (s : AdapterState) : Bool :=
  s.pool.isSome

/-! ## Trace observations -/

/-- All rows passed to `insertRows` across a trace. -/
def insertedRowsOf (ops : List (DbOp Row Key)) : List Row :=
  ops.flatMap fun op =>
    match op with
    | .insertRows rows => rows
    | _ => []

/-- All rows passed to `upsertRows` across a trace. -/
def upsertedRowsOf (ops : List (DbOp Row Key)) : List Row :=
  ops.flatMap fun op =>
    match op with
    | .upsertRows rows => rows
    | _ => []

/-- The key batches of the `DELETE … WHERE pk IN (…)` statements of a
trace, in issue order. -/
def deleteBatchesOf (ops : List (DbOp Row Key)) : List (List Key) :=
  ops.flatMap fun op =>
    match op with
    | .deleteWhereIn ks => [ks]
    | _ => []

/-- Whether the trace contains the update phase's `selectWhere` read. -/
def selectIssued (ops : List (DbOp Row Key)) : Bool :=
  ops.any fun op =>
    match op with
    | .selectWhereQ _ => true
    | _ => false

theorem insertedRowsOf_append (a b : List (DbOp Row Key)) :
    insertedRowsOf (a ++ b) = insertedRowsOf a ++ insertedRowsOf b := by
  simp [insertedRowsOf]

theorem upsertedRowsOf_append (a b : List (DbOp Row Key)) :
    upsertedRowsOf (a ++ b) = upsertedRowsOf a ++ upsertedRowsOf b := by
  simp [upsertedRowsOf]

theorem deleteBatchesOf_append (a b : List (DbOp Row Key)) :
    deleteBatchesOf (a ++ b) = deleteBatchesOf a ++ deleteBatchesOf b := by
  simp [deleteBatchesOf]

/-! ## Characterizing the phases of `primaryKeyBasedSync` -/

/-- The rows the insert phase fetches are exactly the source rows whose
primary key is absent from the target key set. -/
theorem newRowsOf_eq (pkOf : Row → Key) (src tgt : List Row) :
    newRowsOf pkOf src tgt = src.filter (fun r => pkOf r ∉ tgt.map pkOf) := by
  unfold newRowsOf
  by_cases h : (newKeys pkOf src tgt).isEmpty
  · rw [if_pos h]
    rw [List.isEmpty_iff] at h
    symm
    rw [List.filter_eq_nil_iff]
    intro r hr hmem
    have : pkOf r ∈ newKeys pkOf src tgt := by
      unfold newKeys
      rw [List.mem_filter, mem_firstDedup]
      refine ⟨List.mem_map_of_mem pkOf hr, ?_⟩
      simpa using hmem
    rw [h] at this
    simp at this
  · rw [if_neg h]
    apply List.filter_congr
    intro r hr
    have hsrc : pkOf r ∈ src.map pkOf := List.mem_map_of_mem pkOf hr
    by_cases htgt : pkOf r ∈ tgt.map pkOf
    · simp only [newKeys]
      simp [List.mem_filter, mem_firstDedup, htgt]
      intro x _ _
      exact List.mem_map.mp htgt
    · simp only [newKeys]
      simp [List.mem_filter, mem_firstDedup, htgt, hsrc]
      intro x hx hxe
      exact htgt (hxe ▸ List.mem_map_of_mem pkOf hx)

/-- The update phase issues no insert and the delete phase issues no
insert, so the inserted rows of a whole tick are those of the insert
phase. -/
theorem insertedRowsOf_updPair (pkOf : Row → Key) (wOf : Row → Nat)
    (hasW : Bool) (src tgt : List Row) (st : Option Nat) :
    insertedRowsOf (updPairOf pkOf wOf hasW src tgt st).1 = [] := by
  unfold updPairOf
  split
  · match st with
    | some t =>
        simp only
        split <;> simp [insertedRowsOf]
    | none => simp [insertedRowsOf]
  · simp [insertedRowsOf]

theorem insertedRowsOf_delOps (pkOf : Row → Key) (src tgt : List Row) :
    insertedRowsOf (delOpsOf pkOf src tgt : List (DbOp Row Key)) = [] := by
  unfold delOpsOf
  split
  · simp [insertedRowsOf]
  · simp only [insertedRowsOf, List.flatMap_map]
    apply List.flatMap_eq_nil_iff.mpr
    intro b _
    rfl

theorem deleteBatchesOf_insOps (pkOf : Row → Key) (src tgt : List Row) :
    deleteBatchesOf (insOpsOf pkOf src tgt : List (DbOp Row Key)) = [] := by
  unfold insOpsOf
  split <;> simp [deleteBatchesOf]

theorem deleteBatchesOf_updPair (pkOf : Row → Key) (wOf : Row → Nat)
    (hasW : Bool) (src tgt : List Row) (st : Option Nat) :
    deleteBatchesOf (updPairOf pkOf wOf hasW src tgt st).1 = [] := by
  unfold updPairOf
  split
  · match st with
    | some t =>
        simp only
        split <;> simp [deleteBatchesOf]
    | none => simp [deleteBatchesOf]
  · simp [deleteBatchesOf]

theorem upsertedRowsOf_insOps (pkOf : Row → Key) (src tgt : List Row) :
    upsertedRowsOf (insOpsOf pkOf src tgt : List (DbOp Row Key)) = [] := by
  unfold insOpsOf
  split <;> simp [upsertedRowsOf]

theorem upsertedRowsOf_delOps (pkOf : Row → Key) (src tgt : List Row) :
    upsertedRowsOf (delOpsOf pkOf src tgt : List (DbOp Row Key)) = [] := by
  unfold delOpsOf
  split
  · simp [upsertedRowsOf]
  · simp only [upsertedRowsOf, List.flatMap_map]
    apply List.flatMap_eq_nil_iff.mpr
    intro b _
    rfl

theorem deleteBatchesOf_map_delete (bs : List (List Key)) :
    deleteBatchesOf (bs.map (fun ks => (DbOp.deleteWhereIn ks : DbOp Row Key))) = bs := by
  induction bs with
  | nil => rfl
  | cons b bs ih =>
    simp only [List.map_cons, deleteBatchesOf, List.flatMap_cons] at ih ⊢
    rw [ih]
    rfl

/-- The delete statements of a tick carry exactly the 100-key batches of
`deletedPKs`. -/
theorem deleteBatchesOf_pkSyncOps (pkOf : Row → Key) (wOf : Row → Nat)
    (hasW : Bool) (src tgt : List Row) (st : Option Nat) :
    deleteBatchesOf (pkSyncOps pkOf wOf hasW src tgt st)
      = chunksOf100 (deletedKeys pkOf src tgt) := by
  unfold pkSyncOps
  rw [deleteBatchesOf_append, deleteBatchesOf_append, deleteBatchesOf_insOps,
    deleteBatchesOf_updPair]
  simp only [List.nil_append]
  unfold delOpsOf
  split
  · rename_i h
    rw [List.isEmpty_iff] at h
    simp [deleteBatchesOf, h, chunksOf100, chunkGo_nil]
  · exact deleteBatchesOf_map_delete _

/-- Every key of a nodup flattened batch list sits in exactly one batch. -/
theorem countP_batches_of_flatten_nodup (bs : List (List α)) [DecidableEq α]
    (hnd : bs.flatten.Nodup) (k : α) (hk : k ∈ bs.flatten) :
    bs.countP (fun b => k ∈ b) = 1 := by
  induction bs with
  | nil => simp at hk
  | cons b bs ih =>
    rw [List.flatten_cons] at hnd hk
    rw [List.countP_cons]
    rcases List.mem_append.mp hk with hb | hrest
    · have hnotrest : k ∉ bs.flatten :=
        fun hr => (List.disjoint_of_nodup_append hnd) hb hr
      have : bs.countP (fun b => k ∈ b) = 0 := by
        rw [List.countP_eq_zero]
        intro c hc
        simp only [decide_eq_true_eq]
        intro hkc
        exact hnotrest (List.mem_flatten.mpr ⟨c, hc, hkc⟩)
      simp [this, hb]
    · have hnotb : k ∉ b :=
        fun hb => (List.disjoint_of_nodup_append hnd) hb hrest
      rw [ih (List.Nodup.of_append_right hnd) hrest]
      simp [hnotb]

/-- `deletedPKs` is duplicate-free (it comes from a JavaScript `Set`). -/
theorem nodup_deletedKeys (pkOf : Row → Key) (src tgt : List Row) :
    (deletedKeys pkOf src tgt).Nodup :=
  (nodup_firstDedup _).filter _

/-! ## Key sets of the evolving target -/

theorem applyOps_append (pkOf : Row → Key) (tgt : List Row)
    (a b : List (DbOp Row Key)) :
    applyOps pkOf tgt (a ++ b) = applyOps pkOf (applyOps pkOf tgt a) b := by
  simp [applyOps, List.foldl_append]

/-- Keys after a batch of `REPLACE INTO` statements: union. -/
theorem mem_keys_insert (pkOf : Row → Key) (rows tgt : List Row) (k : Key) :
    k ∈ (applyOp pkOf tgt (.insertRows rows)).map pkOf
      ↔ k ∈ tgt.map pkOf ∨ k ∈ rows.map pkOf := by
  show k ∈ (rows.foldl _ tgt).map pkOf ↔ _
  induction rows generalizing tgt with
  | nil => simp
  | cons r rows ih =>
    rw [List.foldl_cons, ih]
    have hstep : k ∈ (tgt.filter (fun x => pkOf x ≠ pkOf r) ++ [r]).map pkOf
        ↔ k ∈ tgt.map pkOf ∨ k = pkOf r := by
      simp only [List.map_append, List.mem_append, List.map_cons, List.map_nil,
        List.mem_singleton, List.mem_map, List.mem_filter]
      by_cases hk : k = pkOf r
      · simp [hk]
      · constructor
        · rintro (⟨x, ⟨hx, _⟩, hxk⟩ | h)
          · exact Or.inl ⟨x, hx, hxk⟩
          · exact Or.inr h
        · rintro (h | h)
          · rcases h with ⟨x, hx, hxk⟩
            refine Or.inl ⟨x, ⟨hx, ?_⟩, hxk⟩
            simp only [decide_not]
            simp [hxk, hk]
          · exact Or.inr h
    rw [hstep]
    simp only [List.map_cons, List.mem_cons]
    tauto

/-- Keys after a batch of upserts: union (an in-place overwrite keeps the
key, a fresh key is appended). -/
theorem mem_keys_upsert (pkOf : Row → Key) (rows tgt : List Row) (k : Key) :
    k ∈ (applyOp pkOf tgt (.upsertRows rows)).map pkOf
      ↔ k ∈ tgt.map pkOf ∨ k ∈ rows.map pkOf := by
  show k ∈ (rows.foldl _ tgt).map pkOf ↔ _
  induction rows generalizing tgt with
  | nil => simp
  | cons r rows ih =>
    rw [List.foldl_cons, ih]
    have hstep : k ∈ ((if pkOf r ∈ tgt.map pkOf then
          tgt.map (fun x => if pkOf x = pkOf r then r else x)
        else tgt ++ [r]).map pkOf)
        ↔ k ∈ tgt.map pkOf ∨ k = pkOf r := by
      split
      · rename_i hmem
        have hkeys : (tgt.map (fun x => if pkOf x = pkOf r then r else x)).map pkOf
            = tgt.map pkOf := by
          rw [List.map_map]
          apply List.map_congr_left
          intro x _
          by_cases hx : pkOf x = pkOf r
          · simp [Function.comp, hx]
          · simp [Function.comp, hx]
        rw [hkeys]
        constructor
        · exact Or.inl
        · rintro (h | h)
          · exact h
          · exact h ▸ hmem
      · simp only [List.map_append, List.mem_append, List.map_cons, List.map_nil,
          List.mem_singleton]
    rw [hstep]
    simp only [List.map_cons, List.mem_cons]
    tauto

/-- Keys after one batched DELETE: difference. -/
theorem mem_keys_delete (pkOf : Row → Key) (ks : List Key) (tgt : List Row) (k : Key) :
    k ∈ (applyOp pkOf tgt (.deleteWhereIn ks)).map pkOf
      ↔ k ∈ tgt.map pkOf ∧ k ∉ ks := by
  show k ∈ (tgt.filter _).map pkOf ↔ _
  simp only [List.mem_map, List.mem_filter, decide_not]
  constructor
  · rintro ⟨x, ⟨hx, hxk⟩, rfl⟩
    simp at hxk
    exact ⟨⟨x, hx, rfl⟩, hxk⟩
  · rintro ⟨⟨x, hx, rfl⟩, hnk⟩
    refine ⟨x, ⟨hx, ?_⟩, rfl⟩
    simpa using hnk

/-- Keys after a whole list of batched DELETEs: difference of the union. -/
theorem mem_keys_deletes (pkOf : Row → Key) (bs : List (List Key))
    (tgt : List Row) (k : Key) :
    k ∈ (applyOps pkOf tgt (bs.map .deleteWhereIn)).map pkOf
      ↔ k ∈ tgt.map pkOf ∧ k ∉ bs.flatten := by
  induction bs generalizing tgt with
  | nil => simp [applyOps]
  | cons b bs ih =>
    simp only [List.map_cons, applyOps, List.foldl_cons] at ih ⊢
    rw [ih, mem_keys_delete]
    simp only [List.flatten_cons, List.mem_append]
    tauto

theorem mem_keys_newRowsOf (pkOf : Row → Key) (src tgt : List Row) (k : Key) :
    k ∈ (newRowsOf pkOf src tgt).map pkOf
      ↔ k ∈ src.map pkOf ∧ k ∉ tgt.map pkOf := by
  rw [newRowsOf_eq]
  simp only [List.mem_map, List.mem_filter, decide_not, Bool.not_eq_true',
    decide_eq_false_iff_not]
  aesop

theorem mem_keys_after_insOps (pkOf : Row → Key) (src tgt : List Row) (k : Key) :
    k ∈ (applyOps pkOf tgt (insOpsOf pkOf src tgt)).map pkOf
      ↔ k ∈ tgt.map pkOf ∨ (k ∈ src.map pkOf ∧ k ∉ tgt.map pkOf) := by
  unfold insOpsOf
  split
  · rename_i h
    rw [List.isEmpty_iff] at h
    have hempty := mem_keys_newRowsOf pkOf src tgt k
    rw [h] at hempty
    simp only [List.map_nil, List.not_mem_nil, false_iff] at hempty
    simp only [applyOps, List.foldl_nil]
    tauto
  · show k ∈ (applyOp pkOf tgt (.insertRows (newRowsOf pkOf src tgt))).map pkOf ↔ _
    rw [mem_keys_insert, mem_keys_newRowsOf]

/-- The rows the update phase upserts all come from the source. -/
theorem mem_keys_updRows_src (pkOf : Row → Key) (wOf : Row → Nat) (hasW : Bool)
    (src tgt : List Row) (st : Option Nat) (k : Key)
    (h : k ∈ (updPairOf pkOf wOf hasW src tgt st).2.map pkOf) :
    k ∈ src.map pkOf := by
  unfold updPairOf at h
  split at h
  · cases st with
    | some t =>
        simp only [List.mem_map, List.mem_filter] at h
        rcases h with ⟨x, ⟨hx, _⟩, rfl⟩
        exact List.mem_map_of_mem pkOf hx
    | none => simp at h
  · simp at h

theorem mem_keys_after_updOps (pkOf : Row → Key) (wOf : Row → Nat) (hasW : Bool)
    (src tgt t : List Row) (st : Option Nat) (k : Key) :
    k ∈ (applyOps pkOf t (updPairOf pkOf wOf hasW src tgt st).1).map pkOf
      ↔ k ∈ t.map pkOf ∨ k ∈ (updPairOf pkOf wOf hasW src tgt st).2.map pkOf := by
  unfold updPairOf
  split
  · cases st with
    | some ts =>
        simp only
        split
        · rename_i hu
          rw [List.isEmpty_iff] at hu
          simp [applyOps, applyOp, hu]
        · show k ∈ (applyOps pkOf t [.selectWhereQ ts, .upsertRows _]).map pkOf ↔ _
          simp only [applyOps, List.foldl_cons, List.foldl_nil]
          show k ∈ (applyOp pkOf (applyOp pkOf t (.selectWhereQ ts)) (.upsertRows _)).map pkOf ↔ _
          rw [show applyOp pkOf t (.selectWhereQ ts) = t from rfl, mem_keys_upsert]
    | none => simp [applyOps]
  · simp [applyOps]

theorem mem_deletedKeys (pkOf : Row → Key) (src tgt : List Row) (k : Key) :
    k ∈ deletedKeys pkOf src tgt ↔ k ∈ tgt.map pkOf ∧ k ∉ src.map pkOf := by
  unfold deletedKeys
  rw [List.mem_filter, mem_firstDedup]
  simp

theorem mem_keys_after_delOps (pkOf : Row → Key) (src tgt t : List Row) (k : Key) :
    k ∈ (applyOps pkOf t (delOpsOf pkOf src tgt)).map pkOf
      ↔ k ∈ t.map pkOf ∧ ¬(k ∈ tgt.map pkOf ∧ k ∉ src.map pkOf) := by
  unfold delOpsOf
  split
  · rename_i h
    rw [List.isEmpty_iff] at h
    have hd := mem_deletedKeys pkOf src tgt k
    rw [h] at hd
    simp only [List.not_mem_nil, false_iff] at hd
    simp only [applyOps, List.foldl_nil]
    tauto
  · rw [mem_keys_deletes, join_chunksOf100, mem_deletedKeys]

/-- After one `primaryKeyBasedSync` tick the target's key set equals the
source's key set: inserts add `S \ T`, upserts stay inside `S`, deletes
remove `T \ S`. -/
theorem mem_keys_target_pkSync (pkOf : Row → Key) (wOf : Row → Nat)
    (hasW : Bool) (src tgt : List Row) (st : Option Nat) (now : Nat) (k : Key) :
    k ∈ (primaryKeyBasedSync pkOf wOf hasW src tgt st now).target.map pkOf
      ↔ k ∈ src.map pkOf := by
  show k ∈ (applyOps pkOf tgt (pkSyncOps pkOf wOf hasW src tgt st)).map pkOf ↔ _
  unfold pkSyncOps
  rw [applyOps_append, applyOps_append, mem_keys_after_delOps,
    mem_keys_after_updOps, mem_keys_after_insOps]
  constructor
  · rintro ⟨(h1 | ⟨h1, _⟩) | h1, h2⟩
    · by_cases hs : k ∈ src.map pkOf
      · exact hs
      · exact absurd ⟨h1, hs⟩ h2
    · exact h1
    · exact mem_keys_updRows_src pkOf wOf hasW src tgt st k h1
  · intro hs
    by_cases ht : k ∈ tgt.map pkOf
    · exact ⟨Or.inl (Or.inl ht), fun hc => hc.2 hs⟩
    · exact ⟨Or.inl (Or.inr ⟨hs, ht⟩), fun hc => hc.2 hs⟩

theorem insertedRowsOf_insOps (pkOf : Row → Key) (src tgt : List Row) :
    insertedRowsOf (insOpsOf pkOf src tgt : List (DbOp Row Key))
      = newRowsOf pkOf src tgt := by
  unfold insOpsOf
  split
  · rename_i h
    rw [List.isEmpty_iff] at h
    simp [insertedRowsOf, h]
  · simp [insertedRowsOf]

/-! ## Claim theorems for the data differ -/

/-- C1.  For every table with a primary key, a steady-state data tick
inserts into the target exactly the rows whose primary-key value is in
the source key set but not in the target key set: the rows passed to
`insertRows` across the whole tick are precisely the source rows whose
key is missing from the target key set, fetched from the source. -/
theorem pk_tick_inserts_source_minus_target (pkOf : Row → Key) (wOf : Row → Nat)
    (hasW : Bool) (src tgt : List Row) (st : Option Nat) (now : Nat) :
    insertedRowsOf (primaryKeyBasedSync pkOf wOf hasW src tgt st now).ops
      = src.filter (fun r => pkOf r ∈ src.map pkOf ∧ pkOf r ∉ tgt.map pkOf) := by
  show insertedRowsOf (pkSyncOps pkOf wOf hasW src tgt st) = _
  unfold pkSyncOps
  rw [insertedRowsOf_append, insertedRowsOf_append, insertedRowsOf_updPair,
    insertedRowsOf_delOps, insertedRowsOf_insOps]
  simp only [List.append_nil]
  rw [newRowsOf_eq]
  apply List.filter_congr
  intro r hr
  simp [List.mem_map_of_mem pkOf hr]

/-- Witness for `pk_tick_inserts_source_minus_target`: source keys
`{1, 2, 3}` against target keys `{1, 2}` insert exactly row 3. -/
theorem pk_tick_inserts_source_minus_target_witness :
    insertedRowsOf (primaryKeyBasedSync (fun r => lookupCol r "id")
        (fun r => lookupCol r "") false
        [[("id", 1)], [("id", 2)], [("id", 3)]]
        [[("id", 1)], [("id", 2)]] none 4).ops
      = [[("id", 3)]] :=
  (pk_tick_inserts_source_minus_target (fun r => lookupCol r "id")
      (fun r => lookupCol r "") false
      [[("id", 1)], [("id", 2)], [("id", 3)]]
      [[("id", 1)], [("id", 2)]] none 4).trans (by decide)

/-- C2.  For every table with a primary key, a steady-state data tick
deletes exactly the keys in the target key set but not the source key
set (`D = T \ S`), issued as `DELETE … WHERE pk IN (…)` statements in
batches of at most 100 keys: exactly `⌈|D| / 100⌉` statements, whose
batches concatenate back to `D`, and every key of `D` appears in exactly
one batch. -/
theorem pk_tick_delete_batches (pkOf : Row → Key) (wOf : Row → Nat)
    (hasW : Bool) (src tgt : List Row) (st : Option Nat) (now : Nat) :
    (∀ k, k ∈ deletedKeys pkOf src tgt ↔ k ∈ tgt.map pkOf ∧ k ∉ src.map pkOf)
    ∧ deleteBatchesOf (primaryKeyBasedSync pkOf wOf hasW src tgt st now).ops
        = chunksOf100 (deletedKeys pkOf src tgt)
    ∧ (deleteBatchesOf (primaryKeyBasedSync pkOf wOf hasW src tgt st now).ops).flatten
        = deletedKeys pkOf src tgt
    ∧ (deleteBatchesOf (primaryKeyBasedSync pkOf wOf hasW src tgt st now).ops).length
        = ((deletedKeys pkOf src tgt).length + 99) / 100
    ∧ (∀ b ∈ deleteBatchesOf (primaryKeyBasedSync pkOf wOf hasW src tgt st now).ops,
        b.length ≤ 100)
    ∧ (∀ k ∈ deletedKeys pkOf src tgt,
        (deleteBatchesOf (primaryKeyBasedSync pkOf wOf hasW src tgt st now).ops).countP
          (fun b => k ∈ b) = 1) := by
  have hbs : deleteBatchesOf (primaryKeyBasedSync pkOf wOf hasW src tgt st now).ops
      = chunksOf100 (deletedKeys pkOf src tgt) :=
    deleteBatchesOf_pkSyncOps pkOf wOf hasW src tgt st
  refine ⟨mem_deletedKeys pkOf src tgt, hbs, ?_, ?_, ?_, ?_⟩
  · rw [hbs, join_chunksOf100]
  · rw [hbs, length_chunksOf100]
  · intro b hb
    rw [hbs] at hb
    exact length_le_of_mem_chunksOf100 _ b hb
  · intro k hk
    rw [hbs]
    apply countP_batches_of_flatten_nodup
    · rw [join_chunksOf100]
      exact nodup_deletedKeys pkOf src tgt
    · rw [join_chunksOf100]
      exact hk

set_option maxRecDepth 4000 in
/-- Witness for `pk_tick_delete_batches`: 250 target-only keys cross the
100-key boundary twice and are issued as exactly 3 DELETE statements. -/
theorem pk_tick_delete_batches_witness :
    (deleteBatchesOf (primaryKeyBasedSync (fun k : Nat => k) (fun _ => 0)
        false [] (List.range 250) none 0).ops).length = 3 :=
  ((pk_tick_delete_batches (fun k : Nat => k) (fun _ => 0) false []
      (List.range 250) none 0).2.2.2.1).trans (by decide)

/-! ## The update phase's run condition -/

theorem selectIssued_append (a b : List (DbOp Row Key)) :
    selectIssued (a ++ b) = (selectIssued a || selectIssued b) := by
  simp [selectIssued]

theorem selectIssued_insOps (pkOf : Row → Key) (src tgt : List Row) :
    selectIssued (insOpsOf pkOf src tgt : List (DbOp Row Key)) = false := by
  unfold insOpsOf
  split <;> simp [selectIssued]

theorem selectIssued_map_delete (bs : List (List Key)) :
    selectIssued (bs.map (fun ks => (DbOp.deleteWhereIn ks : DbOp Row Key))) = false := by
  induction bs with
  | nil => rfl
  | cons b bs ih =>
    simp only [List.map_cons, selectIssued, List.any_cons] at ih ⊢
    simp [ih]

theorem selectIssued_delOps (pkOf : Row → Key) (src tgt : List Row) :
    selectIssued (delOpsOf pkOf src tgt : List (DbOp Row Key)) = false := by
  unfold delOpsOf
  split
  · simp [selectIssued]
  · exact selectIssued_map_delete _

/-- The `selectWhere` read of the update phase is issued iff at least one
key is common, the table has a change-witness column and a prior sync
state exists. -/
theorem selectIssued_pkSync (pkOf : Row → Key) (wOf : Row → Nat) (hasW : Bool)
    (src tgt : List Row) (st : Option Nat) (now : Nat) :
    selectIssued (primaryKeyBasedSync pkOf wOf hasW src tgt st now).ops
      = (!(commonKeys pkOf src tgt).isEmpty && hasW && st.isSome) := by
  show selectIssued (pkSyncOps pkOf wOf hasW src tgt st) = _
  unfold pkSyncOps
  rw [selectIssued_append, selectIssued_append, selectIssued_insOps,
    selectIssued_delOps, Bool.false_or, Bool.or_false]
  unfold updPairOf
  split
  · rename_i hc
    cases st with
    | some ts => simp [selectIssued, hc]
    | none => simp [selectIssued, hc]
  · rename_i hc
    rw [Bool.not_eq_true] at hc
    cases st with
    | some ts => simp [selectIssued, hc]
    | none => simp [selectIssued]

theorem upsertedRowsOf_pkSync (pkOf : Row → Key) (wOf : Row → Nat) (hasW : Bool)
    (src tgt : List Row) (st : Option Nat) (now : Nat) :
    upsertedRowsOf (primaryKeyBasedSync pkOf wOf hasW src tgt st now).ops
      = (match st with
         | some t =>
             if !(commonKeys pkOf src tgt).isEmpty && hasW then
               src.filter (fun r => t < wOf r)
             else []
         | none => []) := by
  show upsertedRowsOf (pkSyncOps pkOf wOf hasW src tgt st) = _
  unfold pkSyncOps
  rw [upsertedRowsOf_append, upsertedRowsOf_append, upsertedRowsOf_insOps,
    upsertedRowsOf_delOps]
  simp only [List.nil_append, List.append_nil]
  unfold updPairOf
  split
  · rename_i hc
    cases st with
    | some ts =>
        simp only [hc, if_true]
        split
        · rename_i hu
          rw [List.isEmpty_iff] at hu
          simp [upsertedRowsOf, hu]
        · simp [upsertedRowsOf]
    | none => simp [upsertedRowsOf]
  · rename_i hc
    rw [Bool.not_eq_true] at hc
    cases st with
    | some ts => simp [upsertedRowsOf, hc]
    | none => simp [upsertedRowsOf]

/-- C3 (amended).  For a table with a primary key, the update phase of a
steady-state data tick runs (its `selectWhere` read is issued) iff the
table has a change-witness column, a prior `lastSyncTime` exists, *and at
least one primary-key value is common to source and target*; when it
runs, exactly the rows returned by
`selectWhere(source, t, witness, lastSyncTime)` are upserted. -/
theorem update_phase_runs_iff (cols : List ColumnInfo) (src tgt : List RowV)
    (st : Option Nat) (now : Nat) (pk : String)
    (hpk : getPrimaryKey cols = some pk) :
    selectIssued (syncTable cols src tgt st now).ops
      = (!(commonKeys (fun r => lookupCol r pk) src tgt).isEmpty
          && hasTimestampColumn cols && st.isSome)
    ∧ upsertedRowsOf (syncTable cols src tgt st now).ops
      = (match st with
         | some t =>
             if !(commonKeys (fun r => lookupCol r pk) src tgt).isEmpty
                 && hasTimestampColumn cols then
               src.filter (fun r => t < lookupCol r ((getTimestampColumn cols).getD ""))
             else []
         | none => []) := by
  have hs : syncTable cols src tgt st now
      = primaryKeyBasedSync (fun r => lookupCol r pk)
          (fun r => lookupCol r ((getTimestampColumn cols).getD ""))
          (hasTimestampColumn cols) src tgt st now := by
    unfold syncTable
    rw [hpk]
  rw [hs]
  exact ⟨selectIssued_pkSync _ _ _ _ _ _ _, upsertedRowsOf_pkSync _ _ _ _ _ _ _⟩

/-- Witness for `update_phase_runs_iff`: on a `users(id PK, updated_at)`
table with key 1 on both sides and state 2, the tick issues the
`selectWhere` read and upserts the one row whose witness advanced. -/
theorem update_phase_runs_iff_witness :
    selectIssued (syncTable
        [⟨"id", "int", "NO", "PRI", none, ""⟩,
         ⟨"updated_at", "timestamp", "YES", "", none, ""⟩]
        [[("id", 1), ("updated_at", 5)]] [[("id", 1), ("updated_at", 2)]]
        (some 2) 9).ops = true
    ∧ upsertedRowsOf (syncTable
        [⟨"id", "int", "NO", "PRI", none, ""⟩,
         ⟨"updated_at", "timestamp", "YES", "", none, ""⟩]
        [[("id", 1), ("updated_at", 5)]] [[("id", 1), ("updated_at", 2)]]
        (some 2) 9).ops = [[("id", 1), ("updated_at", 5)]] := by
  have h := update_phase_runs_iff
    [⟨"id", "int", "NO", "PRI", none, ""⟩,
     ⟨"updated_at", "timestamp", "YES", "", none, ""⟩]
    [[("id", 1), ("updated_at", 5)]] [[("id", 1), ("updated_at", 2)]]
    (some 2) 9 "id" (by decide)
  exact ⟨h.1.trans (by decide), h.2.trans (by decide)⟩

/-- Counterexample to C3 as stated: a table whose change-witness column
exists and whose sync state exists, yet the update phase does not run
because no primary-key value is common (the target is empty), even though
`selectWhere` would have returned a row. -/
theorem update_phase_skipped_without_common_keys :
    hasTimestampColumn
        [⟨"id", "int", "NO", "PRI", none, ""⟩,
         ⟨"updated_at", "timestamp", "YES", "", none, ""⟩] = true
    ∧ (some 0 : Option Nat).isSome = true
    ∧ ([[("id", 1), ("updated_at", 5)]] : List RowV).filter
        (fun r => 0 < lookupCol r "updated_at") ≠ []
    ∧ selectIssued (syncTable
        [⟨"id", "int", "NO", "PRI", none, ""⟩,
         ⟨"updated_at", "timestamp", "YES", "", none, ""⟩]
        [[("id", 1), ("updated_at", 5)]] [] (some 0) 7).ops = false
    ∧ upsertedRowsOf (syncTable
        [⟨"id", "int", "NO", "PRI", none, ""⟩,
         ⟨"updated_at", "timestamp", "YES", "", none, ""⟩]
        [[("id", 1), ("updated_at", 5)]] [] (some 0) 7).ops = [] := by
  decide

/-- C4 (amended).  A steady-state data tick dispatches per table: with a
primary key the primary-key-based reconciliation runs; with none the tick
emits a warning and performs a full table sync — truncate the target and
reload every source row — regardless of the row counts. -/
theorem syncTable_dispatch (cols : List ColumnInfo) (src tgt : List RowV)
    (st : Option Nat) (now : Nat) :
    (∀ pk, getPrimaryKey cols = some pk →
      syncTable cols src tgt st now
        = primaryKeyBasedSync (fun r => lookupCol r pk)
            (fun r => lookupCol r ((getTimestampColumn cols).getD ""))
            (hasTimestampColumn cols) src tgt st now)
    ∧ (getPrimaryKey cols = none →
        (syncTable cols src tgt st now).ops
          = .warnNoPk :: .truncate :: (if src.isEmpty then [] else [.insertRows src])
        ∧ (syncTable cols src tgt st now).target = src
        ∧ (syncTable cols src tgt st now).state = st) := by
  constructor
  · intro pk hpk
    unfold syncTable
    rw [hpk]
  · intro hpk
    unfold syncTable
    rw [hpk]
    exact ⟨rfl, rfl, rfl⟩

/-- Witness for `syncTable_dispatch`: a keyless table's tick is warn,
truncate, reload. -/
theorem syncTable_dispatch_witness :
    (syncTable [⟨"a", "int", "NO", "", none, ""⟩]
        [[("a", 1)]] [[("a", 2)]] none 3).ops
      = [.warnNoPk, .truncate, .insertRows [[("a", 1)]]] :=
  ((syncTable_dispatch [⟨"a", "int", "NO", "", none, ""⟩]
      [[("a", 1)]] [[("a", 2)]] none 3).2 (by decide)).1.trans (by decide)

/-- Counterexample to C4 as stated: a keyless table whose source and
target row counts are equal (1 = 1) — the count-based path would act only
when the counts differ, i.e. not at all — yet the tick issues mutating
statements (truncate and reload). -/
theorem noPk_equal_counts_still_reloads :
    ([[("a", 1)]] : List RowV).length = ([[("a", 2)]] : List RowV).length
    ∧ (syncTable [⟨"a", "int", "NO", "", none, ""⟩]
          [[("a", 1)]] [[("a", 2)]] none 3).ops.filter (fun o => o.isMutation)
        ≠ [] := by
  decide

/-- C9.  `getPrimaryKey` returns the `Field` of the first column whose
`Key` is `'PRI'` (and `null` when none is), and the whole per-table
reconciliation is keyed on that single first column. -/
theorem getPrimaryKey_first_pri (cols : List ColumnInfo) :
    (∀ c, cols.find? (fun col => col.Key == "PRI") = some c →
      getPrimaryKey cols = some c.Field
      ∧ ∀ (src tgt : List RowV) (st : Option Nat) (now : Nat),
          syncTable cols src tgt st now
            = primaryKeyBasedSync (fun r => lookupCol r c.Field)
                (fun r => lookupCol r ((getTimestampColumn cols).getD ""))
                (hasTimestampColumn cols) src tgt st now)
    ∧ (cols.find? (fun col => col.Key == "PRI") = none →
        getPrimaryKey cols = none) := by
  constructor
  · intro c hc
    have h1 : getPrimaryKey cols = some c.Field := by
      unfold getPrimaryKey
      rw [hc]
      rfl
    refine ⟨h1, fun src tgt st now => ?_⟩
    unfold syncTable
    rw [h1]
  · intro hc
    unfold getPrimaryKey
    rw [hc]
    rfl

/-- Witness for `getPrimaryKey_first_pri`: on a composite-key table
`(id1 PRI, id2 PRI)` only `id1` is used, so a source row and a target row
agreeing on `id1` but differing on `id2` trigger no insert and no
delete. -/
theorem getPrimaryKey_first_pri_witness :
    getPrimaryKey
        [⟨"id1", "int", "NO", "PRI", none, ""⟩,
         ⟨"id2", "int", "NO", "PRI", none, ""⟩] = some "id1"
    ∧ (syncTable
        [⟨"id1", "int", "NO", "PRI", none, ""⟩,
         ⟨"id2", "int", "NO", "PRI", none, ""⟩]
        [[("id1", 1), ("id2", 2)]] [[("id1", 1), ("id2", 3)]]
        none 5).ops.filter (fun o => o.isMutation) = [] := by
  have h := (getPrimaryKey_first_pri
      [⟨"id1", "int", "NO", "PRI", none, ""⟩,
       ⟨"id2", "int", "NO", "PRI", none, ""⟩]).1
    ⟨"id1", "int", "NO", "PRI", none, ""⟩ (by decide)
  refine ⟨h.1, ?_⟩
  rw [h.2 [[("id1", 1), ("id2", 2)]] [[("id1", 1), ("id2", 3)]] none 5]
  decide

/-- When the target's key set already equals the source's and no source
witness value exceeds the recorded sync time, a tick issues no mutating
statement, leaves the target and the sync state unchanged and reports 0
rows affected. -/
theorem pkSync_noop (pkOf : Row → Key) (wOf : Row → Nat) (hasW : Bool)
    (src tgt2 : List Row) (st : Option Nat) (now : Nat)
    (hkeys : ∀ k, k ∈ tgt2.map pkOf ↔ k ∈ src.map pkOf)
    (hw : ∀ r ∈ src, ∀ t, st = some t → wOf r ≤ t) :
    (primaryKeyBasedSync pkOf wOf hasW src tgt2 st now).ops.filter
        (fun o => o.isMutation) = []
    ∧ (primaryKeyBasedSync pkOf wOf hasW src tgt2 st now).target = tgt2
    ∧ (primaryKeyBasedSync pkOf wOf hasW src tgt2 st now).total = 0
    ∧ (primaryKeyBasedSync pkOf wOf hasW src tgt2 st now).state = st := by
  have P2 : newRowsOf pkOf src tgt2 = [] := by
    rw [newRowsOf_eq, List.filter_eq_nil_iff]
    intro r hr
    simp only [decide_not, Bool.not_eq_eq_eq_not, Bool.not_true,
      decide_eq_false_iff_not, not_not]
    exact (hkeys (pkOf r)).mpr (List.mem_map_of_mem pkOf hr)
  have P3 : insOpsOf pkOf src tgt2 = ([] : List (DbOp Row Key)) := by
    unfold insOpsOf
    rw [P2]
    rfl
  have P4 : deletedKeys pkOf src tgt2 = [] := by
    unfold deletedKeys
    rw [List.filter_eq_nil_iff]
    intro k hk
    rw [mem_firstDedup] at hk
    simp only [decide_not, Bool.not_eq_eq_eq_not, Bool.not_true,
      decide_eq_false_iff_not, not_not]
    exact (hkeys k).mp hk
  have P5 : delOpsOf pkOf src tgt2 = ([] : List (DbOp Row Key)) := by
    unfold delOpsOf
    rw [P4]
    rfl
  have P6 : (updPairOf pkOf wOf hasW src tgt2 st).2 = []
      ∧ (updPairOf pkOf wOf hasW src tgt2 st).1.filter (fun o => o.isMutation) = []
      ∧ applyOps pkOf tgt2 (updPairOf pkOf wOf hasW src tgt2 st).1 = tgt2 := by
    unfold updPairOf
    split
    · cases st with
      | some t =>
          have hu : src.filter (fun r => t < wOf r) = [] := by
            rw [List.filter_eq_nil_iff]
            intro r hr
            simp only [decide_eq_true_eq, not_lt]
            exact hw r hr t rfl
          simp [hu, DbOp.isMutation, applyOps, applyOp]
      | none => simp [applyOps]
    · simp [applyOps]
  have hops : pkSyncOps pkOf wOf hasW src tgt2 st
      = (updPairOf pkOf wOf hasW src tgt2 st).1 := by
    unfold pkSyncOps
    rw [P3, P5, List.nil_append, List.append_nil]
  refine ⟨?_, ?_, ?_, ?_⟩
  · show (pkSyncOps pkOf wOf hasW src tgt2 st).filter _ = []
    rw [hops]
    exact P6.2.1
  · show applyOps pkOf tgt2 (pkSyncOps pkOf wOf hasW src tgt2 st) = tgt2
    rw [hops]
    exact P6.2.2
  · show (newRowsOf pkOf src tgt2).length
        + (updPairOf pkOf wOf hasW src tgt2 st).2.length
        + (deletedKeys pkOf src tgt2).length = 0
    rw [P2, P4, P6.1]
    rfl
  · show (if 0 < (newRowsOf pkOf src tgt2).length
        + (updPairOf pkOf wOf hasW src tgt2 st).2.length
        + (deletedKeys pkOf src tgt2).length then some now else st) = st
    rw [P2, P4, P6.1]
    rfl

/-- C5.  Running a data tick twice in succession with no source changes
(and no witness value later than the state the first tick recorded)
performs zero mutations: the second tick issues no insert, upsert,
delete or truncate statement, and leaves the target table, the reported
total and the sync state unchanged. -/
theorem second_tick_performs_no_mutations (pkOf : Row → Key) (wOf : Row → Nat)
    (hasW : Bool) (src tgt : List Row) (st0 : Option Nat) (now1 now2 : Nat)
    (h : ∀ r ∈ src, ∀ t,
      (primaryKeyBasedSync pkOf wOf hasW src tgt st0 now1).state = some t
        → wOf r ≤ t) :
    (primaryKeyBasedSync pkOf wOf hasW src
        (primaryKeyBasedSync pkOf wOf hasW src tgt st0 now1).target
        (primaryKeyBasedSync pkOf wOf hasW src tgt st0 now1).state now2).ops.filter
      (fun o => o.isMutation) = []
    ∧ (primaryKeyBasedSync pkOf wOf hasW src
        (primaryKeyBasedSync pkOf wOf hasW src tgt st0 now1).target
        (primaryKeyBasedSync pkOf wOf hasW src tgt st0 now1).state now2).target
      = (primaryKeyBasedSync pkOf wOf hasW src tgt st0 now1).target
    ∧ (primaryKeyBasedSync pkOf wOf hasW src
        (primaryKeyBasedSync pkOf wOf hasW src tgt st0 now1).target
        (primaryKeyBasedSync pkOf wOf hasW src tgt st0 now1).state now2).total = 0
    ∧ (primaryKeyBasedSync pkOf wOf hasW src
        (primaryKeyBasedSync pkOf wOf hasW src tgt st0 now1).target
        (primaryKeyBasedSync pkOf wOf hasW src tgt st0 now1).state now2).state
      = (primaryKeyBasedSync pkOf wOf hasW src tgt st0 now1).state :=
  pkSync_noop pkOf wOf hasW src
    (primaryKeyBasedSync pkOf wOf hasW src tgt st0 now1).target
    (primaryKeyBasedSync pkOf wOf hasW src tgt st0 now1).state now2
    (fun k => mem_keys_target_pkSync pkOf wOf hasW src tgt st0 now1 k)
    h

/-- Witness for `second_tick_performs_no_mutations`: `users(id PK,
updated_at)`, source keys `{1, 2}`, target key `{1}` — the first tick
inserts key 2 and records time 5; the second tick is a no-op. -/
theorem second_tick_performs_no_mutations_witness :
    (∀ r ∈ ([[("id", 1), ("updated_at", 3)], [("id", 2), ("updated_at", 4)]] : List RowV),
      ∀ t, (primaryKeyBasedSync (fun r => lookupCol r "id")
          (fun r => lookupCol r "updated_at") true
          [[("id", 1), ("updated_at", 3)], [("id", 2), ("updated_at", 4)]]
          [[("id", 1), ("updated_at", 3)]] (some 2) 5).state = some t
        → lookupCol r "updated_at" ≤ t)
    ∧ (primaryKeyBasedSync (fun r => lookupCol r "id")
        (fun r => lookupCol r "updated_at") true
        [[("id", 1), ("updated_at", 3)], [("id", 2), ("updated_at", 4)]]
        (primaryKeyBasedSync (fun r => lookupCol r "id")
          (fun r => lookupCol r "updated_at") true
          [[("id", 1), ("updated_at", 3)], [("id", 2), ("updated_at", 4)]]
          [[("id", 1), ("updated_at", 3)]] (some 2) 5).target
        (primaryKeyBasedSync (fun r => lookupCol r "id")
          (fun r => lookupCol r "updated_at") true
          [[("id", 1), ("updated_at", 3)], [("id", 2), ("updated_at", 4)]]
          [[("id", 1), ("updated_at", 3)]] (some 2) 5).state 9).ops.filter
      (fun o => o.isMutation) = [] :=
  ⟨by decide,
    (second_tick_performs_no_mutations (fun r => lookupCol r "id")
      (fun r => lookupCol r "updated_at") true
      [[("id", 1), ("updated_at", 3)], [("id", 2), ("updated_at", 4)]]
      [[("id", 1), ("updated_at", 3)]] (some 2) 5 9 (by decide)).1⟩

/-! ## Claim theorems for tick-level error handling -/

instance {ε α : Type} [DecidableEq ε] [DecidableEq α] :
    DecidableEq (Except ε α) := fun a b =>
  match a, b with
  | .ok x, .ok y => decidable_of_iff (x = y) (by simp)
  | .error x, .error y => decidable_of_iff (x = y) (by simp)
  | .ok _, .error _ => isFalse (by simp)
  | .error _, .ok _ => isFalse (by simp)

/-- The error string a table contributes to the tick (none when its sync
returned normally). -/
def jobResultErr (j : TableJob) : Option String :=
  match syncTableE j with
  | .ok _ => none
  | .error m => some (tableErrorMsg j m)

/-- The rows-synced count a table contributes to the tick. -/
def jobOk (j : TableJob) : Nat :=
  match syncTableE j with
  | .ok n => n
  | .error _ => 0

theorem syncData_foldl (jobs : List TableJob) (a : Nat × List String) :
    jobs.foldl
      (fun (a : Nat × List String) j =>
        match syncTableE j with
        | .ok n => (a.1 + n, a.2)
        | .error m => (a.1, a.2 ++ [tableErrorMsg j m]))
      a
    = (a.1 + (jobs.map jobOk).sum, a.2 ++ jobs.filterMap jobResultErr) := by
  induction jobs generalizing a with
  | nil => simp
  | cons j js ih =>
    rw [List.foldl_cons, ih]
    cases hj : syncTableE j with
    | ok n =>
        simp only [List.map_cons, List.sum_cons, List.filterMap_cons, jobOk,
          jobResultErr, hj]
        rw [Nat.add_assoc]
    | error m =>
        simp only [List.map_cons, List.sum_cons, List.filterMap_cons, jobOk,
          jobResultErr, hj]
        simp [List.append_assoc]

/-- C6 (amended).  A data tick processes every table: each table's escaped
exception is caught and appended to the tick's error list (the tick
continues with the remaining tables), the rows-synced counts of the
others still accumulate, and `success` is true iff the error list is
empty.  However, the primary-key-based reconciliation catches its own
exceptions and returns 0, so a failing insert, upsert or delete inside it
never reaches the tick's error list: a table with a primary key never
contributes an error, and the tick still reports `success = true`. -/
theorem tick_success_accounting (jobs : List TableJob) :
    ((syncData jobs).success = true ↔ (syncData jobs).errors = [])
    ∧ (syncData jobs).errors = jobs.filterMap jobResultErr
    ∧ (syncData jobs).totalRowsSynced = (jobs.map jobOk).sum
    ∧ (∀ j ∈ jobs, ∀ pk, getPrimaryKey j.cols = some pk → jobResultErr j = none) := by
  have hfold := syncData_foldl jobs (0, [])
  have herr : (syncData jobs).errors = jobs.filterMap jobResultErr := by
    unfold syncData
    rw [hfold]
    simp
  have htot : (syncData jobs).totalRowsSynced = (jobs.map jobOk).sum := by
    unfold syncData
    rw [hfold]
    simp
  have hsucc : (syncData jobs).success = (syncData jobs).errors.isEmpty := rfl
  refine ⟨?_, herr, htot, ?_⟩
  · rw [hsucc, List.isEmpty_iff]
  · intro j _ pk hpk
    unfold jobResultErr syncTableE
    rw [hpk]

/-- Witness for `tick_success_accounting`: a table with a primary key
contributes no error even when its insert statement throws. -/
theorem tick_success_accounting_witness :
    jobResultErr
      ⟨"users", [⟨"id", "int", "NO", "PRI", none, ""⟩],
        [[("id", 1)]], [], none, true, false, false, false⟩ = none :=
  (tick_success_accounting
      [⟨"users", [⟨"id", "int", "NO", "PRI", none, ""⟩],
        [[("id", 1)]], [], none, true, false, false, false⟩]).2.2.2
    ⟨"users", [⟨"id", "int", "NO", "PRI", none, ""⟩],
      [[("id", 1)]], [], none, true, false, false, false⟩
    (by decide) "id" (by decide)

/-- Counterexample to C6 as stated: a tick over one `users(id PK)` table
whose insert statement fails.  The insert is genuinely attempted (the
source row is new) and the body of `primaryKeyBasedSync` throws, yet the
tick reports `success = true` with an empty error list. -/
theorem pk_insert_failure_reports_success :
    newRowsOf (fun r => lookupCol r "id")
        ([[("id", 1)]] : List RowV) ([] : List RowV) ≠ []
    ∧ pkSyncAttempt true false false (fun r => lookupCol r "id")
        (fun r => lookupCol r ((getTimestampColumn
          [⟨"id", "int", "NO", "PRI", none, ""⟩]).getD ""))
        (hasTimestampColumn [⟨"id", "int", "NO", "PRI", none, ""⟩])
        [[("id", 1)]] [] none
      = Except.error "Query failed"
    ∧ (syncData [⟨"users", [⟨"id", "int", "NO", "PRI", none, ""⟩],
        [[("id", 1)]], [], none, true, false, false, false⟩]).success = true
    ∧ (syncData [⟨"users", [⟨"id", "int", "NO", "PRI", none, ""⟩],
        [[("id", 1)]], [], none, true, false, false, false⟩]).errors = [] := by
  decide

/-! ## Claim theorems for the schema differ -/

instance : IsTotal IndexInfo (fun a b => a.Seq_in_index ≤ b.Seq_in_index) :=
  ⟨fun a b => Nat.le_total a.Seq_in_index b.Seq_in_index⟩

instance : IsTrans IndexInfo (fun a b => a.Seq_in_index ≤ b.Seq_in_index) :=
  ⟨fun _ _ _ => Nat.le_trans⟩

theorem columnOps_no_index (sc tc : List ColumnInfo) :
    ∀ op ∈ columnOps sc tc, op.isIndexOp = false := by
  intro op hop
  unfold columnOps at hop
  rcases List.mem_append.mp hop with h | h
  · rcases List.mem_flatMap.mp h with ⟨c, _, hin⟩
    split at hin
    · rcases List.mem_singleton.mp hin with rfl
      rfl
    · split at hin
      · rcases List.mem_singleton.mp hin with rfl
        rfl
      · simp at hin
  · rcases List.mem_flatMap.mp h with ⟨c, _, hin⟩
    split at hin
    · simp at hin
    · rcases List.mem_singleton.mp hin with rfl
      rfl

theorem mem_indexNames (idxs : List IndexInfo) (n : String) :
    n ∈ indexNames idxs ↔ n ∈ idxs.map (·.Key_name) := by
  unfold indexNames
  exact mem_firstDedup _ n

theorem mem_syncIndexes_drop (si ti : List IndexInfo) (n : String) :
    SchemaOp.dropIndex n ∈ syncIndexes si ti
      ↔ n ∈ ti.map (·.Key_name) ∧ n ≠ "PRIMARY" ∧ n ∉ si.map (·.Key_name) := by
  unfold syncIndexes
  rw [List.mem_append]
  constructor
  · rintro (h | h)
    · rcases List.mem_map.mp h with ⟨m, hm, hEq⟩
      injection hEq with hmn
      subst hmn
      rcases List.mem_filter.mp hm with ⟨hmem, hcond⟩
      rw [mem_indexNames] at hmem
      simp only [Bool.and_eq_true, decide_eq_true_eq, Bool.not_eq_true'] at hcond
      refine ⟨hmem, hcond.1, ?_⟩
      intro hc
      have : (indexNames si).contains m = true := by
        simp [mem_indexNames, hc]
      rw [hcond.2] at this
      exact Bool.false_ne_true this
    · rcases List.mem_map.mp h with ⟨m, _, hEq⟩
      simp [createIndexOp] at hEq
  · rintro ⟨h1, h2, h3⟩
    refine Or.inl (List.mem_map.mpr ⟨n, List.mem_filter.mpr ⟨?_, ?_⟩, rfl⟩)
    · rw [mem_indexNames]
      exact h1
    · simp only [Bool.and_eq_true, decide_eq_true_eq, Bool.not_eq_true']
      refine ⟨h2, ?_⟩
      simp [mem_indexNames, h3]

theorem mem_syncIndexes_create (si ti : List IndexInfo) (n : String)
    (u : Bool) (cs : List String) :
    SchemaOp.createIndex n u cs ∈ syncIndexes si ti
      ↔ n ∈ si.map (·.Key_name) ∧ n ≠ "PRIMARY" ∧ n ∉ ti.map (·.Key_name)
        ∧ u = (((indexParts si n).headD ⟨"", 1, 0, ""⟩).Non_unique == 0)
        ∧ cs = (sortBySeq (indexParts si n)).map (·.Column_name) := by
  unfold syncIndexes
  rw [List.mem_append]
  constructor
  · rintro (h | h)
    · rcases List.mem_map.mp h with ⟨m, _, hEq⟩
      simp at hEq
    · rcases List.mem_map.mp h with ⟨m, hm, hEq⟩
      unfold createIndexOp at hEq
      injection hEq with hmn hu hcs
      subst hmn
      rcases List.mem_filter.mp hm with ⟨hmem, hcond⟩
      rw [mem_indexNames] at hmem
      simp only [Bool.and_eq_true, decide_eq_true_eq, Bool.not_eq_true'] at hcond
      refine ⟨hmem, hcond.1, ?_, hu.symm, hcs.symm⟩
      intro hc
      have hcontains : (indexNames ti).contains m = true := by
        simp [mem_indexNames, hc]
      rw [hcond.2] at hcontains
      exact Bool.false_ne_true hcontains
  · rintro ⟨h1, h2, h3, h4, h5⟩
    subst h4
    subst h5
    refine Or.inr (List.mem_map.mpr ⟨n, List.mem_filter.mpr ⟨?_, ?_⟩, rfl⟩)
    · rw [mem_indexNames]
      exact h1
    · simp only [Bool.and_eq_true, decide_eq_true_eq, Bool.not_eq_true']
      refine ⟨h2, ?_⟩
      simp [mem_indexNames, h3]

/-- C7 (amended).  The index reconciliation the claim describes — group by
name, drop non-PRIMARY target names missing from the source, create
non-PRIMARY source names missing from the target as composite indexes
with the unique flag from `Non_unique == 0` and columns ordered by
`Seq_in_index` — is exactly what the v1 `SchemaSync.syncIndexes`
performs; but the adapter-based v2 schema tick used by the sync service
issues *no* index statement at all: its `updateTableStructure` walks
columns only, even when the index lists differ. -/
theorem index_reconciliation_v1_only (srcCols tgtCols : List ColumnInfo)
    (si ti : List IndexInfo) :
    (∀ op ∈ syncTableStructure srcCols tgtCols si ti, op.isIndexOp = false)
    ∧ (∀ n, SchemaOp.dropIndex n ∈ syncIndexes si ti
        ↔ n ∈ ti.map (·.Key_name) ∧ n ≠ "PRIMARY" ∧ n ∉ si.map (·.Key_name))
    ∧ (∀ n u cs, SchemaOp.createIndex n u cs ∈ syncIndexes si ti
        ↔ n ∈ si.map (·.Key_name) ∧ n ≠ "PRIMARY" ∧ n ∉ ti.map (·.Key_name)
          ∧ u = (((indexParts si n).headD ⟨"", 1, 0, ""⟩).Non_unique == 0)
          ∧ cs = (sortBySeq (indexParts si n)).map (·.Column_name))
    ∧ (∀ parts : List IndexInfo, (sortBySeq parts).Perm parts
        ∧ (sortBySeq parts).Sorted (fun a b => a.Seq_in_index ≤ b.Seq_in_index))
    ∧ updateTableStructureV1 srcCols tgtCols si ti
        = columnOps srcCols tgtCols ++ syncIndexes si ti := by
  refine ⟨?_, mem_syncIndexes_drop si ti, mem_syncIndexes_create si ti, ?_, rfl⟩
  · intro op hop
    unfold syncTableStructure at hop
    split at hop
    · exact columnOps_no_index srcCols tgtCols op hop
    · simp at hop
  · intro parts
    exact ⟨List.perm_insertionSort _ parts, List.sorted_insertionSort _ parts⟩

/-- Witness for `index_reconciliation_v1_only`: v1 drops the target-only
index `old` and creates the source-only composite unique index `new`
with its columns in `Seq_in_index` order. -/
theorem index_reconciliation_v1_only_witness :
    SchemaOp.dropIndex "old" ∈ syncIndexes
        [⟨"new", 0, 2, "b"⟩, ⟨"new", 0, 1, "a"⟩] [⟨"old", 1, 1, "c"⟩]
    ∧ SchemaOp.createIndex "new" true ["a", "b"] ∈ syncIndexes
        [⟨"new", 0, 2, "b"⟩, ⟨"new", 0, 1, "a"⟩] [⟨"old", 1, 1, "c"⟩] :=
  ⟨((index_reconciliation_v1_only [] []
        [⟨"new", 0, 2, "b"⟩, ⟨"new", 0, 1, "a"⟩] [⟨"old", 1, 1, "c"⟩]).2.1
      "old").mpr (by decide),
    ((index_reconciliation_v1_only [] []
        [⟨"new", 0, 2, "b"⟩, ⟨"new", 0, 1, "a"⟩] [⟨"old", 1, 1, "c"⟩]).2.2.1
      "new" true ["a", "b"]).mpr (by decide)⟩

/-- Counterexample to C7 as stated: a table whose columns agree on both
sides but whose source has an extra non-PRIMARY index `i1`.  The schema
tick (the adapter-based v2 `updateTableStructure`, which the claim's own
code reference points at) flags the difference yet issues no statement at
all — in particular it does not create `i1`, although `syncIndexes` (v1)
would have. -/
theorem v2_tick_ignores_index_diff :
    compareTableStructure [⟨"id", "int", "NO", "PRI", none, ""⟩]
        [⟨"id", "int", "NO", "PRI", none, ""⟩] [⟨"i1", 1, 1, "id"⟩] [] = true
    ∧ syncTableStructure [⟨"id", "int", "NO", "PRI", none, ""⟩]
        [⟨"id", "int", "NO", "PRI", none, ""⟩] [⟨"i1", 1, 1, "id"⟩] [] = []
    ∧ syncIndexes [⟨"i1", 1, 1, "id"⟩] []
        = [SchemaOp.createIndex "i1" false ["id"]] := by
  decide

/-! ## Claim theorems for the routine syncer -/

/-- C8 (amended).  Per routine kind, for each source routine: absent on
the target ⇒ its CREATE is executed *provided the CREATE text is
non-empty* (an empty CREATE — the adapter's fetch-failure fallback —
executes nothing); present with byte-for-byte different CREATE text ⇒
`DROP <kind> IF EXISTS` is executed, followed by the source CREATE only
when it is non-empty; byte-equal CREATE text ⇒ no action.  A DROP is only
ever issued for a source routine that also exists on the target, so
target-only routines are never dropped. -/
theorem routine_sync_behavior (kind : String) (srcR tgtR : List RoutineInfo) :
    (∀ s ∈ srcR, tgtR.find? (fun t => t.name == s.name) = none →
      routineAction kind tgtR s
        = if s.createStatement ≠ "" then [.createStmt s.createStatement] else [])
    ∧ (∀ s ∈ srcR, ∀ t, tgtR.find? (fun t' => t'.name == s.name) = some t →
      routineAction kind tgtR s
        = if s.createStatement ≠ t.createStatement then
            .dropRoutine kind s.name ::
              (if s.createStatement ≠ "" then [.createStmt s.createStatement] else [])
          else [])
    ∧ syncRoutines kind srcR tgtR = srcR.flatMap (routineAction kind tgtR)
    ∧ (∀ k n, RoutineOp.dropRoutine k n ∈ syncRoutines kind srcR tgtR →
        k = kind ∧ n ∈ srcR.map (·.name) ∧ ∃ t ∈ tgtR, t.name = n) := by
  refine ⟨?_, ?_, rfl, ?_⟩
  · intro s _ hfind
    unfold routineAction
    rw [hfind]
  · intro s _ t hfind
    unfold routineAction
    rw [hfind]
  · intro k n hmem
    unfold syncRoutines at hmem
    rcases List.mem_flatMap.mp hmem with ⟨s, hs, hin⟩
    cases hfind : tgtR.find? (fun t => t.name == s.name) with
    | none =>
        have heq : routineAction kind tgtR s
            = if s.createStatement ≠ "" then
                [.createStmt s.createStatement] else [] := by
          unfold routineAction
          rw [hfind]
        rw [heq] at hin
        split at hin
        · exact absurd (List.mem_singleton.mp hin) (by simp)
        · simp at hin
    | some t =>
        have heq : routineAction kind tgtR s
            = if s.createStatement ≠ t.createStatement then
                .dropRoutine kind s.name ::
                  (if s.createStatement ≠ "" then
                    [.createStmt s.createStatement] else [])
              else [] := by
          unfold routineAction
          rw [hfind]
        rw [heq] at hin
        split at hin
        · rcases List.mem_cons.mp hin with h | h
          · injection h with hk hn
            refine ⟨hk, ?_, t, List.mem_of_find?_eq_some hfind, ?_⟩
            · rw [hn]
              exact List.mem_map_of_mem _ hs
            · have hname := List.find?_some hfind
              rw [hn]
              exact eq_of_beq hname
          · split at h
            · exact absurd (List.mem_singleton.mp h) (by simp)
            · simp at h
        · simp at hin

/-- Witness for `routine_sync_behavior`: a source procedure with
non-empty CREATE text absent on the target is created. -/
theorem routine_sync_behavior_witness :
    routineAction "PROCEDURE" [] ⟨"p", "CREATE P"⟩
      = [RoutineOp.createStmt "CREATE P"] :=
  ((routine_sync_behavior "PROCEDURE" [⟨"p", "CREATE P"⟩] []).1
      ⟨"p", "CREATE P"⟩ (by decide) (by decide)).trans (by decide)

/-- Counterexample to C8 as stated: a source routine with empty CREATE
text (the adapter's fetch-failure fallback).  Absent on the target, the
claimed pass would execute its CREATE but the code executes nothing;
present with differing text, the code issues the DROP but not the
CREATE. -/
theorem empty_create_routines_diverge :
    syncRoutines "PROCEDURE" [⟨"p", ""⟩] [] = []
    ∧ syncRoutinesClaimed "PROCEDURE" [⟨"p", ""⟩] [] = [RoutineOp.createStmt ""]
    ∧ syncRoutines "FUNCTION" [⟨"f", ""⟩] [⟨"f", "CREATE F"⟩]
        = [RoutineOp.dropRoutine "FUNCTION" "f"]
    ∧ syncRoutinesClaimed "FUNCTION" [⟨"f", ""⟩] [⟨"f", "CREATE F"⟩]
        = [RoutineOp.dropRoutine "FUNCTION" "f", RoutineOp.createStmt ""] := by
  decide

/-- C10.  When the validating pool acquire throws inside
`MySQLAdapter.connect`, the wrapped error is re-thrown but the adapter
keeps the pool it created beforehand, so `isConnected()` returns `true`
although no working connection exists. -/
theorem failed_connect_leaves_pool_set (s : AdapterState) :
    (mysqlConnect true s).2 = Except.error "Failed to connect to MySQL database"
    ∧ isConnected (mysqlConnect true s).1 = true :=
  ⟨rfl, rfl⟩

/-- Witness for `failed_connect_leaves_pool_set`: starting from a fresh
adapter (`pool = null`), a failed connect leaves `isConnected()` true. -/
theorem failed_connect_leaves_pool_set_witness :
    isConnected (mysqlConnect true ⟨none⟩).1 = true :=
  (failed_connect_leaves_pool_set ⟨none⟩).2

end DbSync
